import Mathlib

/-
  Verification of the migration orchestrator of Financial-Times/elasticsearch-reindexer.

  The definitions below are a shallow embedding of src/service/es_service.go.
  Calls to the Elasticsearch client are modelled by an explicit environment of
  responses; every call the service makes is recorded in an effect trace, and
  Go errors are represented by their message strings.  The polling loops
  (waitForReadOnly, waitForCompletion) receive a fuel parameter; exhausting the
  fuel yields the distinguished outcome `timeout`, modelling a run that is cut
  off while the Go loop is still polling.
-/

namespace Reindexer

/-- Result of a fallible call; the error is the Go error message string. -/
abbrev Res (α : Type) := Except String α

/-- Go `ErrNoIndexVersion` from es_service.go. -/
def errNoIndexVersion : String := "No index version has been specified"

/-- Rendering of a Go `[]string` by `fmt` verb `%v`: elements space-separated
inside square brackets.  `spaceSep` is the space-separated element list. -/
def spaceSep : List String → String
  | [] => ""
  | [x] => x
  | x :: y :: t => x ++ " " ++ spaceSep (y :: t)

/-- Go `fmt.Sprintf("%v", xs)` for `xs : []string`. -/
def goSliceV (xs : List String) : String := "[" ++ spaceSep xs ++ "]"

/-- The message of `fmt.Errorf("alias %s points to multiple indices: %v", aliasName, aliasedIndices)`
from checkIndexAliases (es_service.go line 278). -/
def multipleIndicesMsg (aliasName : String) (indices : List String) : String :=
  "alias " ++ aliasName ++ " points to multiple indices: " ++ goSliceV indices

/-- The four return values of Go `checkIndexAliases`; a `none` error is Go `nil`. -/
structure AliasCheckResult where
  requireUpdate : Bool
  currentIndex : String
  requiredIndex : String
  err : Option String
deriving Repr, DecidableEq

/-- Shallow embedding of es_service.go `checkIndexAliases` (lines 255-280).
`aliasesResult` is the outcome of `aliasesService.Do(ctx)` projected through
`IndicesByAlias(aliasName)`: either a transport error or the list of indices
currently carrying the alias. -/
def checkIndexAliases (aliasName indexVersion : String)
    (aliasesResult : Res (List String)) : AliasCheckResult :=
  match aliasesResult with
  | .error e => ⟨false, "", "", some e⟩
  | .ok aliasedIndices =>
    match aliasedIndices with
    | [] =>
      ⟨true, "", aliasName ++ "-" ++ indexVersion, none⟩
    | [i] =>
      let requiredIndex := aliasName ++ "-" ++ indexVersion
      ⟨!(i == requiredIndex), i, requiredIndex, none⟩
    | is =>
      ⟨false, "", "", some (multipleIndicesMsg aliasName is)⟩

/-- `needle` occurs as a contiguous substring of `hay`. -/
def strContains (hay needle : String) : Prop :=
  ∃ p q : List Char, hay.data = p ++ needle.data ++ q

theorem data_append (a b : String) : (a ++ b).data = a.data ++ b.data := by
  cases a; cases b; rfl

theorem spaceSep_contains (l : List String) (x : String) (hx : x ∈ l) :
    ∃ p q : List Char, (spaceSep l).data = p ++ x.data ++ q := by
  induction l with
  | nil => cases hx
  | cons y t ih =>
    cases t with
    | nil =>
      rcases hx with _ | ⟨_, h⟩
      · exact ⟨[], [], by simp [spaceSep]⟩
      · cases h
    | cons z t' =>
      rcases hx with _ | ⟨_, hmem⟩
      · exact ⟨[], (" " ++ spaceSep (z :: t')).data, by
          simp [spaceSep, data_append, List.append_assoc]⟩
      · obtain ⟨p, q, hpq⟩ := ih hmem
        exact ⟨(y ++ " ").data ++ p, q, by
          simp [spaceSep, data_append, hpq, List.append_assoc]⟩

/-- Claim C1: checkIndexAliases computes the required index name as
`"{alias}-{version}"`; with zero aliased indices it reports an update with no
current index and no error, and with exactly one aliased index `i` it reports
`updateRequired = (i != requiredIndex)`, current index `i`, and no error. -/
theorem checkIndexAliases_zero_or_one (a v i : String) :
    checkIndexAliases a v (.ok []) = ⟨true, "", a ++ "-" ++ v, none⟩ ∧
    checkIndexAliases a v (.ok [i]) = ⟨i != (a ++ "-" ++ v), i, a ++ "-" ++ v, none⟩ := by
  exact ⟨rfl, rfl⟩

/-- Claim C4: for an alias resolving to two or more indices, checkIndexAliases
fails with an error message containing the alias name and every resolved index
name, and returns `updateRequired = false` with empty current and required
index names. -/
theorem checkIndexAliases_multiple_indices (a v i1 i2 : String) (rest : List String) :
    checkIndexAliases a v (.ok (i1 :: i2 :: rest)) =
      ⟨false, "", "", some (multipleIndicesMsg a (i1 :: i2 :: rest))⟩ ∧
    strContains (multipleIndicesMsg a (i1 :: i2 :: rest)) a ∧
    ∀ x, x ∈ i1 :: i2 :: rest → strContains (multipleIndicesMsg a (i1 :: i2 :: rest)) x := by
  refine ⟨rfl, ?_, ?_⟩
  · exact ⟨"alias ".data, (" points to multiple indices: " ++ goSliceV (i1 :: i2 :: rest)).data,
      by simp [multipleIndicesMsg, data_append, List.append_assoc]⟩
  · intro x hx
    obtain ⟨p, q, hpq⟩ := spaceSep_contains (i1 :: i2 :: rest) x hx
    refine ⟨("alias " ++ a ++ " points to multiple indices: " ++ "[").data ++ p,
      q ++ "]".data, ?_⟩
    simp [multipleIndicesMsg, goSliceV, data_append, hpq, List.append_assoc]

/-- Witness for C4 at a concrete alias and index list. -/
theorem checkIndexAliases_multiple_indices_witness :
    ("idx-A" ∈ ["idx-A", "idx-B"]) ∧
    strContains (multipleIndicesMsg "concepts" ["idx-A", "idx-B"]) "idx-A" := by
  refine ⟨by decide, ?_⟩
  exact (checkIndexAliases_multiple_indices "concepts" "1.0.0" "idx-A" "idx-B" []).2.2
    "idx-A" (by decide)

/-- Claim C8 counterexample: the up-to-date decision is NOT a structural
semantic-version comparison.  The current index `"concepts-v1.0.0"` carries the
same semantic version 1.0.0 as the required `"concepts-1.0.0"` in a different
textual form, yet checkIndexAliases reports that an update is required. -/
theorem checkIndexAliases_not_structural :
    checkIndexAliases "concepts" "1.0.0" (.ok ["concepts-v1.0.0"]) =
      ⟨true, "concepts-v1.0.0", "concepts-1.0.0", none⟩ := by
  decide

/-- Claim C8 (amended): when the alias resolves to exactly one index, the
migration decision is plain string equality of the whole current index name
against `"{alias}-{version}"`; no update is required exactly when the names
are textually identical. -/
theorem checkIndexAliases_plain_equality (a v i : String) :
    (checkIndexAliases a v (.ok [i])).requireUpdate = false ↔ i = a ++ "-" ++ v := by
  simp [checkIndexAliases]

/-- Every call the service makes against the cluster or the filesystem,
recorded in order. -/
inductive Effect where
  | healthQuery
  | aliasesQuery
  | readFile (path : String)
  | createIndex (name mapping : String)
  | putReadOnly (index : String)
  | getSettings (index : String)
  | countQuery (index : String)
  | startReindex (src dst : String)
  | aliasUpdate (aliasName filter oldIndex newIndex : String)
deriving Repr, DecidableEq

/-- Result of a run: Go `nil`, a Go error message, or fuel exhaustion (the Go
loop would still be polling). -/
inductive Outcome where
  | success
  | failure (e : String)
  | timeout
deriving Repr, DecidableEq

/-- One observation of the index settings inside waitForReadOnly: a failed
`IndexGetSettings` call, a settings document without `blocks`, one without
`blocks.write`, or the `blocks.write` value string. -/
inductive SettingsObs where
  | fetchError (e : String)
  | noBlocks
  | noWrite
  | write (value : String)
deriving Repr, DecidableEq

/-- Go `strconv.ParseBool` with the error ignored (as in
`readOnly, _ := strconv.ParseBool(...)`): `true` for the six true-spellings,
`false` for everything else. -/
def goParseBool (s : String) : Bool :=
  s == "1" || s == "t" || s == "T" || s == "TRUE" || s == "true" || s == "True"

/-- The message of `fmt.Errorf("setting index read-only %s: process may have stalled", indexName)`. -/
def roStalledMsg (indexName : String) : String :=
  "setting index read-only " ++ indexName ++ ": process may have stalled"

/-- Shallow embedding of es_service.go `waitForReadOnly` (lines 300-348).
`settings i` is the observation of the i-th `IndexGetSettings` call,
`errCount` the running `taskErrCount`.  A successful read-only observation
returns immediately; a fetch error counts the error and retries at once
(the Go `continue` skips both the re-issued write and the sleep); the other
unsuccessful observations count the error, re-issue the read-only write and
sleep before the next poll. -/
def waitForReadOnlyRun (indexName : String) (settings : Nat → SettingsObs) (maxErrors : Nat) :
    Nat → Nat → Nat → Outcome × List Effect
  | _, _, 0 => (.timeout, [])
  | i, errCount, fuel + 1 =>
    match settings i with
    | .fetchError e =>
      if errCount + 1 = maxErrors then (.failure e, [.getSettings indexName])
      else
        let r := waitForReadOnlyRun indexName settings maxErrors (i + 1) (errCount + 1) fuel
        (r.1, .getSettings indexName :: r.2)
    | .noBlocks =>
      if errCount + 1 = maxErrors then (.failure (roStalledMsg indexName), [.getSettings indexName])
      else
        let r := waitForReadOnlyRun indexName settings maxErrors (i + 1) (errCount + 1) fuel
        (r.1, .getSettings indexName :: .putReadOnly indexName :: r.2)
    | .noWrite =>
      if errCount + 1 = maxErrors then (.failure (roStalledMsg indexName), [.getSettings indexName])
      else
        let r := waitForReadOnlyRun indexName settings maxErrors (i + 1) (errCount + 1) fuel
        (r.1, .getSettings indexName :: .putReadOnly indexName :: r.2)
    | .write v =>
      if goParseBool v then (.success, [.getSettings indexName])
      else if errCount + 1 = maxErrors then
        (.failure (roStalledMsg indexName), [.getSettings indexName])
      else
        let r := waitForReadOnlyRun indexName settings maxErrors (i + 1) (errCount + 1) fuel
        (r.1, .getSettings indexName :: .putReadOnly indexName :: r.2)

/-- Claim C7 counterexample: two consecutive settings-fetch errors exhaust a
budget of 2 and propagate the transport error, but the read-only write was
never re-issued (`putReadOnly` does not occur in the trace), contradicting the
claim that every unsuccessful observation re-issues the read-only write and
sleeps before observing again. -/
theorem waitForReadOnly_fetch_error_no_reissue :
    waitForReadOnlyRun "idx" (fun _ => .fetchError "transport failure") 2 0 0 5 =
      (.failure "transport failure", [.getSettings "idx", .getSettings "idx"]) ∧
    Effect.putReadOnly "idx" ∉
      (waitForReadOnlyRun "idx" (fun _ => .fetchError "transport failure") 2 0 0 5).2 := by
  constructor
  · rfl
  · decide

/-- Claim C7 (amended): in waitForReadOnly, a poll observing the write-block
flag true returns success; an unsuccessful observation increments the error
count, and when the count reaches `maxErrors` the loop fails with the
propagated fetch error or with the read-only-stalled message; an unsuccessful
observation that is a missing-blocks, missing-write or flag-false observation
re-issues the read-only write (and sleeps) before polling again, but a
settings-fetch error retries immediately without re-issuing the write. -/
theorem waitForReadOnly_behavior (idx : String) (settings : Nat → SettingsObs)
    (m i t fuel : Nat) :
    (∀ v, settings i = .write v → goParseBool v = true →
      waitForReadOnlyRun idx settings m i t (fuel + 1) = (.success, [.getSettings idx])) ∧
    (∀ e, settings i = .fetchError e → t + 1 = m →
      waitForReadOnlyRun idx settings m i t (fuel + 1) = (.failure e, [.getSettings idx])) ∧
    (∀ e, settings i = .fetchError e → t + 1 ≠ m →
      waitForReadOnlyRun idx settings m i t (fuel + 1) =
        ((waitForReadOnlyRun idx settings m (i + 1) (t + 1) fuel).1,
          .getSettings idx :: (waitForReadOnlyRun idx settings m (i + 1) (t + 1) fuel).2)) ∧
    (settings i = .noBlocks ∨ settings i = .noWrite ∨
        (∃ v, settings i = .write v ∧ goParseBool v = false) →
      (t + 1 = m →
        waitForReadOnlyRun idx settings m i t (fuel + 1) =
          (.failure (roStalledMsg idx), [.getSettings idx])) ∧
      (t + 1 ≠ m →
        waitForReadOnlyRun idx settings m i t (fuel + 1) =
          ((waitForReadOnlyRun idx settings m (i + 1) (t + 1) fuel).1,
            .getSettings idx :: .putReadOnly idx ::
              (waitForReadOnlyRun idx settings m (i + 1) (t + 1) fuel).2))) := by
  refine ⟨?_, ?_, ?_, ?_⟩
  · intro v hv hb
    simp [waitForReadOnlyRun, hv, hb]
  · intro e he hm
    simp [waitForReadOnlyRun, he, hm]
  · intro e he hm
    simp [waitForReadOnlyRun, he, hm]
  · intro hobs
    constructor
    · intro hm
      rcases hobs with h | h | ⟨v, hv, hb⟩
      · simp [waitForReadOnlyRun, h, hm]
      · simp [waitForReadOnlyRun, h, hm]
      · simp [waitForReadOnlyRun, hv, hb, hm]
    · intro hm
      rcases hobs with h | h | ⟨v, hv, hb⟩
      · simp [waitForReadOnlyRun, h, hm]
      · simp [waitForReadOnlyRun, h, hm]
      · simp [waitForReadOnlyRun, hv, hb, hm]

/-- Witness for the amended C7: a flag-false observation under budget 3
re-issues the read-only write and continues. -/
theorem waitForReadOnly_behavior_witness :
    ((fun _ => SettingsObs.write "false") 0 = SettingsObs.noBlocks ∨
      (fun _ => SettingsObs.write "false") 0 = SettingsObs.noWrite ∨
      (∃ v, (fun _ => SettingsObs.write "false") 0 = SettingsObs.write v ∧
        goParseBool v = false)) ∧
    (0 + 1 ≠ 3) ∧
    waitForReadOnlyRun "a" (fun _ => .write "false") 3 0 0 3 =
      ((waitForReadOnlyRun "a" (fun _ => .write "false") 3 1 1 2).1,
        .getSettings "a" :: .putReadOnly "a" ::
          (waitForReadOnlyRun "a" (fun _ => .write "false") 3 1 1 2).2) := by
  refine ⟨Or.inr (Or.inr ⟨"false", rfl, by decide⟩), by decide, ?_⟩
  exact ((waitForReadOnly_behavior "a" (fun _ => .write "false") 3 0 0 2).2.2.2
    (Or.inr (Or.inr ⟨"false", rfl, by decide⟩))).2 (by decide)

/-- The mutable state of the waitForCompletion loop: `taskErrCount` and the
`history` window of observed destination counts. -/
structure CompState where
  errCount : Nat
  history : List Nat
deriving Repr, DecidableEq

/-- What one iteration of the waitForCompletion loop body decides: exit
successfully, abort with an error, or continue polling with a new state. -/
inductive StepResult where
  | exitOk
  | exitErr (e : String)
  | next (s : CompState)
deriving Repr, DecidableEq

/-- The `done` document count of one poll: the count returned by the count
query, or 0 when the query errors (the Go zero value returned alongside the
error). -/
def doneOf (r : Res Nat) : Nat :=
  match r with
  | .ok n => n
  | .error _ => 0

/-- The message of `fmt.Errorf("reindexing into %s: process may have stalled", indexName)`. -/
def reindexStalledMsg (indexName : String) : String :=
  "reindexing into " ++ indexName ++ ": process may have stalled"

/-- The history-window bookkeeping of the waitForCompletion loop body
(es_service.go lines 393-407), entered when the poll did not finish and did
not abort: append `done`, evict the oldest entry once the window exceeds 5,
and on a stall (post-eviction oldest equals `done`) count an error, aborting
at `maxErrors` or resetting the window to `[done]`. -/
def completionWindow (indexName : String) (maxErrors errCount : Nat)
    (history : List Nat) (done : Nat) : StepResult :=
  let h1 := history ++ [done]
  if 5 < h1.length then
    let h2 := h1.tail
    match h2.head? with
    | some oldest =>
      if oldest == done then
        if errCount + 1 = maxErrors then .exitErr (reindexStalledMsg indexName)
        else .next ⟨errCount + 1, [done]⟩
      else .next ⟨errCount, h2⟩
    | none => .next ⟨errCount, h2⟩
  else .next ⟨errCount, h1⟩

/-- One iteration of the waitForCompletion loop body (es_service.go lines
379-407), after the progress write: a poll error increments `taskErrCount`
and aborts with the propagated error at `maxErrors`; then the loop breaks if
`done == completeCount`; otherwise the window bookkeeping of
`completionWindow` runs. -/
def completionStep (indexName : String) (completeCount maxErrors : Nat)
    (s : CompState) (r : Res Nat) : StepResult :=
  match r with
  | .error e =>
    if s.errCount + 1 = maxErrors then .exitErr e
    else if doneOf (.error e) == completeCount then .exitOk
    else completionWindow indexName maxErrors (s.errCount + 1) s.history (doneOf (.error e))
  | .ok d =>
    if d == completeCount then .exitOk
    else completionWindow indexName maxErrors s.errCount s.history d

/-- The sliding-window update described by the spec: append the observed count
and evict the oldest value once the window holds more than 5 entries. -/
def slidingWindowUpdate (history : List Nat) (d : Nat) : List Nat :=
  let w := history ++ [d]
  if 5 < w.length then w.drop 1 else w

/-- The stall test described by the spec: the newly observed count overflowed
the window (so the oldest value was evicted) and the resulting full window's
oldest value equals the newest observed count `d`. -/
def stallEvent (history : List Nat) (d : Nat) : Bool :=
  decide (5 < (history ++ [d]).length) && ((slidingWindowUpdate history d).head? == some d)

/-- The window bookkeeping in the spec's vocabulary: on a stall event the
error counter is incremented (aborting with the stalled message at the
maximum) and the window is reset to the current value alone; otherwise the
loop continues with the slid window. -/
def describedWindow (indexName : String) (maxErrors errCount : Nat)
    (history : List Nat) (done : Nat) : StepResult :=
  if stallEvent history done then
    if errCount + 1 = maxErrors then .exitErr (reindexStalledMsg indexName)
    else .next ⟨errCount + 1, [done]⟩
  else .next ⟨errCount, slidingWindowUpdate history done⟩

/-- The loop body in the spec's vocabulary: a transport/query error increments
the same error counter as stall events and aborts with the propagated error
at the maximum; a count equal to the expected count finishes; otherwise the
described sliding-window bookkeeping runs. -/
def completionStepDescribed (indexName : String) (completeCount maxErrors : Nat)
    (s : CompState) (r : Res Nat) : StepResult :=
  match r with
  | .error e =>
    if s.errCount + 1 = maxErrors then .exitErr e
    else if doneOf (.error e) == completeCount then .exitOk
    else describedWindow indexName maxErrors (s.errCount + 1) s.history (doneOf (.error e))
  | .ok d =>
    if d == completeCount then .exitOk
    else describedWindow indexName maxErrors s.errCount s.history d

/-- The progress string of es_service.go line 380:
`fmt.Sprintf("%v / %v documents reindexed", done, completeCount)`. -/
def progressMsg (done completeCount : Nat) : String :=
  toString done ++ " / " ++ toString completeCount ++ " documents reindexed"

/-- A full run of the waitForCompletion loop: terminal outcome, the progress
strings written (one per iteration, written before the iteration exits or
sleeps), and the recorded count queries. -/
structure CompRun where
  outcome : Outcome
  progressWrites : List String
  effects : List Effect
deriving Repr, DecidableEq

/-- Shallow embedding of es_service.go `waitForCompletion` (lines 375-413).
`polls i` is the result of the i-th destination count query. -/
def waitForCompletionRun (indexName : String) (polls : Nat → Res Nat)
    (completeCount maxErrors : Nat) : Nat → CompState → Nat → CompRun
  | _, _, 0 => ⟨.timeout, [], []⟩
  | i, s, fuel + 1 =>
    let r := polls i
    let prog := progressMsg (doneOf r) completeCount
    match completionStep indexName completeCount maxErrors s r with
    | .exitOk => ⟨.success, [prog], [.countQuery indexName]⟩
    | .exitErr e => ⟨.failure e, [prog], [.countQuery indexName]⟩
    | .next s' =>
      let rest := waitForCompletionRun indexName polls completeCount maxErrors (i + 1) s' fuel
      ⟨rest.outcome, prog :: rest.progressWrites, .countQuery indexName :: rest.effects⟩

theorem completionWindow_eq_described (idx : String) (m t : Nat)
    (h : List Nat) (d : Nat) :
    completionWindow idx m t h d = describedWindow idx m t h d := by
  by_cases hlen : 5 < (h ++ [d]).length
  · have hne : h ++ [d] ≠ [] := by simp
    simp only [completionWindow, describedWindow, stallEvent, slidingWindowUpdate, hlen,
      if_true, decide_eq_true hlen, Bool.true_and, List.drop_one]
    cases hh : (h ++ [d]).tail.head? with
    | none =>
      simp [hh]
    | some oldest =>
      simp only [hh]
      by_cases heq : oldest = d
      · simp [heq]
      · simp [heq, Option.some.injEq]
  · have hlen' : ¬5 < h.length + 1 := by
      simpa using hlen
    simp [completionWindow, describedWindow, stallEvent, slidingWindowUpdate, hlen, hlen']

/-- Claim C2: the waitForCompletion loop body behaves exactly as the spec's
stall-detection description: each non-finishing observed count is appended to
the window, the oldest entry is evicted once the window holds more than 5
entries, a stall event (the evicting observation leaves a full window whose
oldest value equals the newest observed count) increments the error counter
and resets the window to the current value alone, a poll error increments the
same counter, and reaching `maxErrors` aborts with the stalled message (stall)
or the propagated error (transport).  Moreover the window invariant holds: it
never exceeds 5 entries, and under that invariant the stall event fires
exactly when the pre-append window was already full and the slid window's
oldest value equals the newest observed count. -/
theorem completionStep_described (idx : String) (cc m : Nat)
    (s : CompState) (r : Res Nat) (hinv : s.history.length ≤ 5) :
    completionStep idx cc m s r = completionStepDescribed idx cc m s r ∧
    (∀ s', completionStep idx cc m s r = .next s' → s'.history.length ≤ 5) ∧
    (∀ d, stallEvent s.history d = true ↔
      (s.history.length = 5 ∧ (slidingWindowUpdate s.history d).head? = some d)) := by
  refine ⟨?_, ?_, ?_⟩
  · cases r with
    | error e =>
      simp only [completionStep, completionStepDescribed, completionWindow_eq_described]
    | ok d =>
      simp only [completionStep, completionStepDescribed, completionWindow_eq_described]
  · intro s' hs'
    have hwin : ∀ t d, completionWindow idx m t s.history d = .next s' →
        s'.history.length ≤ 5 := by
      intro t d hw
      have hlen6 : (s.history ++ [d]).length = s.history.length + 1 := by simp
      by_cases hlen : 5 < (s.history ++ [d]).length
      · simp only [completionWindow, hlen, if_true] at hw
        cases hh : (s.history ++ [d]).tail.head? with
        | none =>
          simp only [hh] at hw
          cases hw
          simp only [List.length_tail, List.length_append, List.length_singleton]
          omega
        | some oldest =>
          simp only [hh] at hw
          by_cases heq : oldest == d
          · simp only [heq, if_true] at hw
            by_cases hm : t + 1 = m
            · simp [hm] at hw
            · simp only [hm, if_false] at hw
              cases hw
              simp
          · simp only [heq, if_false] at hw
            cases hw
            simp only [List.length_tail, List.length_append, List.length_singleton]
            omega
      · simp only [completionWindow, hlen, if_false] at hw
        cases hw
        simp only [List.length_append, List.length_singleton]
        omega
    cases r with
    | error e =>
      simp only [completionStep] at hs'
      by_cases hm : s.errCount + 1 = m
      · simp [hm] at hs'
      · simp only [hm, if_false] at hs'
        by_cases hf : doneOf (.error e) == cc
        · simp [hf] at hs'
        · simp only [hf, if_false] at hs'
          exact hwin _ _ hs'
    | ok d =>
      simp only [completionStep] at hs'
      by_cases hf : d == cc
      · simp [hf] at hs'
      · simp only [hf, if_false] at hs'
        exact hwin _ _ hs'
  · intro d
    constructor
    · intro hst
      simp only [stallEvent, Bool.and_eq_true, decide_eq_true_eq, beq_iff_eq] at hst
      obtain ⟨hlen, hhead⟩ := hst
      simp only [List.length_append, List.length_singleton] at hlen
      refine ⟨by omega, hhead⟩
    · intro ⟨hlen, hhead⟩
      simp only [stallEvent, Bool.and_eq_true, decide_eq_true_eq, beq_iff_eq]
      exact ⟨by simp [hlen], hhead⟩

/-- Witness for C2 at a concrete full window with equal oldest and newest. -/
theorem completionStep_described_witness :
    (([7, 1, 2, 3, 4] : List Nat).length ≤ 5) ∧
    (stallEvent [7, 1, 2, 3, 4] 1 = true ↔
      (([7, 1, 2, 3, 4] : List Nat).length = 5 ∧
        (slidingWindowUpdate [7, 1, 2, 3, 4] 1).head? = some 1)) := by
  refine ⟨by decide, ?_⟩
  exact (completionStep_described "idx" 100 3 ⟨0, [7, 1, 2, 3, 4]⟩ (.ok 1)
    (by decide)).2.2 1

theorem wc_progress (idx : String) (polls : Nat → Res Nat) (cc m : Nat) :
    ∀ fuel i s, ∃ n,
      (waitForCompletionRun idx polls cc m i s fuel).progressWrites =
        (List.range n).map (fun j => progressMsg (doneOf (polls (i + j))) cc) ∧
      (waitForCompletionRun idx polls cc m i s fuel).effects =
        List.replicate n (Effect.countQuery idx) ∧
      (0 < fuel → 0 < n) := by
  intro fuel
  induction fuel with
  | zero =>
    intro i s
    exact ⟨0, by simp [waitForCompletionRun], by simp [waitForCompletionRun], by omega⟩
  | succ fuel ih =>
    intro i s
    cases hstep : completionStep idx cc m s (polls i) with
    | exitOk =>
      refine ⟨1, ?_, ?_, by omega⟩
      · simp [waitForCompletionRun, hstep, List.range_succ]
      · simp [waitForCompletionRun, hstep]
    | exitErr e =>
      refine ⟨1, ?_, ?_, by omega⟩
      · simp [waitForCompletionRun, hstep, List.range_succ]
      · simp [waitForCompletionRun, hstep]
    | next s' =>
      obtain ⟨n, h1, h2, _⟩ := ih (i + 1) s'
      refine ⟨n + 1, ?_, ?_, by omega⟩
      · have hcong : ((List.range n).map Nat.succ).map
              (fun j => progressMsg (doneOf (polls (i + j))) cc) =
            (List.range n).map (fun j => progressMsg (doneOf (polls (i + 1 + j))) cc) := by
          rw [List.map_map]
          refine List.map_congr_left ?_
          intro j _
          have hj : i + Nat.succ j = i + 1 + j := by omega
          simp [Function.comp, hj]
        rw [List.range_succ_eq_map, List.map_cons]
        simp [waitForCompletionRun, hstep, h1, hcong]
      · simp [waitForCompletionRun, hstep, h2, List.replicate_succ]

/-- Claim C9: every iteration of the waitForCompletion loop, including
iterations whose count query errors, writes the progress string
`"{currentCount} / {expectedCount} documents reindexed"` before the loop exits
or sleeps: a run of the loop produces exactly one progress write per count
query, and the j-th write is formatted from the j-th polled count (0 for an
errored poll). -/
theorem waitForCompletion_progress_every_poll (idx : String) (polls : Nat → Res Nat)
    (cc m i fuel : Nat) (s : CompState) :
    ∃ n,
      (waitForCompletionRun idx polls cc m i s fuel).progressWrites =
        (List.range n).map (fun j => progressMsg (doneOf (polls (i + j))) cc) ∧
      (waitForCompletionRun idx polls cc m i s fuel).effects =
        List.replicate n (Effect.countQuery idx) ∧
      (0 < fuel → 0 < n) :=
  wc_progress idx polls cc m fuel i s

/-- Witness for C9 on a concrete run whose first poll errors. -/
theorem waitForCompletion_progress_every_poll_witness :
    ∃ n,
      (waitForCompletionRun "idx" (fun _ => .error "boom") 2 5 0 ⟨0, []⟩ 7).progressWrites =
        (List.range n).map
          (fun j => progressMsg (doneOf ((fun _ => Except.error "boom") (0 + j))) 2) ∧
      (waitForCompletionRun "idx" (fun _ => .error "boom") 2 5 0 ⟨0, []⟩ 7).effects =
        List.replicate n (Effect.countQuery "idx") ∧
      (0 < 7 → 0 < n) :=
  waitForCompletion_progress_every_poll "idx" (fun _ => .error "boom") 2 5 0 7 ⟨0, []⟩

theorem stall_loop (idx : String) (c cc m : Nat) (hne : c ≠ cc) :
    ∀ fuel t k i, t < m → 1 ≤ k → k ≤ 5 → 5 * (m - t) - k + 1 ≤ fuel →
      (waitForCompletionRun idx (fun _ => .ok c) cc m i ⟨t, List.replicate k c⟩ fuel).outcome =
        .failure (reindexStalledMsg idx) := by
  intro fuel
  induction fuel with
  | zero =>
    intro t k i ht hk1 hk5 hf
    omega
  | succ fuel ih =>
    intro t k i ht hk1 hk5 hf
    have hbeq : (c == cc) = false := by simp [hne]
    by_cases hk : k = 5
    · subst hk
      have h5 : List.replicate 5 c = [c, c, c, c, c] := rfl
      rw [h5]
      have hwin : completionStep idx cc m ⟨t, [c, c, c, c, c]⟩ (Except.ok c) =
          (if t + 1 = m then StepResult.exitErr (reindexStalledMsg idx)
            else StepResult.next ⟨t + 1, [c]⟩) := by
        simp [completionStep, completionWindow, hbeq]
      by_cases hm : t + 1 = m
      · simp [waitForCompletionRun, hwin, hm]
      · have hnext : completionStep idx cc m ⟨t, [c, c, c, c, c]⟩ (Except.ok c) =
            StepResult.next ⟨t + 1, [c]⟩ := by
          rw [hwin, if_neg hm]
        have hrec := ih (t + 1) 1 (i + 1) (by omega) (by omega) (by omega) (by omega)
        have h1' : List.replicate 1 c = [c] := rfl
        rw [h1'] at hrec
        simpa [waitForCompletionRun, hnext] using hrec
    · have hlt : ¬5 < k + 1 := by omega
      have hnext : completionStep idx cc m ⟨t, List.replicate k c⟩ (Except.ok c) =
          StepResult.next ⟨t, List.replicate (k + 1) c⟩ := by
        simp [completionStep, completionWindow, hbeq, hlt, ← List.replicate_succ']
      have hrec := ih t (k + 1) (i + 1) ht (by omega) (by omega) (by omega)
      simpa [waitForCompletionRun, hnext] using hrec

theorem stall_run_main (idx : String) (c cc m i fuel : Nat) (hne : c ≠ cc)
    (hm : 1 ≤ m) (hf : 5 * m + 1 ≤ fuel) :
    (waitForCompletionRun idx (fun _ => .ok c) cc m i ⟨0, []⟩ fuel).outcome =
      .failure (reindexStalledMsg idx) := by
  obtain ⟨f, rfl⟩ : ∃ f, fuel = f + 1 := ⟨fuel - 1, by omega⟩
  have hbeq : (c == cc) = false := by simp [hne]
  have hnext : completionStep idx cc m ⟨0, []⟩ (Except.ok c) =
      StepResult.next ⟨0, [c]⟩ := by
    simp [completionStep, completionWindow, hbeq]
  have hrec := stall_loop idx c cc m hne f 0 1 (i + 1) (by omega) (by omega) (by omega)
    (by omega)
  simpa [waitForCompletionRun, hnext] using hrec

/-- The service configuration used by MigrateIndex: the alias, the mapping
file path, the optional alias-filter file path (empty = not configured) and
the required index version. -/
structure Config where
  aliasName : String
  mappingFile : String
  aliasFilterFile : String
  indexVersion : String

/-- The environment of responses the cluster and the filesystem give to one
MigrateIndex run.  `aliases` is the aliases query projected through
`IndicesByAlias(aliasName)`; `settingsObs` and `pollCounts` are the streams
of responses of the two polling loops; `destCountRes`/`srcCountRes` are the
two count queries of `reindex` (the destination count value is read and
discarded by the Go code; only the source count becomes the expected count). -/
structure Env where
  health : Res Unit
  aliases : Res (List String)
  files : String → Res String
  createIndexRes : Res Unit
  setReadOnlyRes : Res Unit
  settingsObs : Nat → SettingsObs
  destCountRes : Res Nat
  srcCountRes : Res Nat
  reindexStartRes : Res Unit
  pollCounts : Nat → Res Nat
  aliasUpdateRes : Res Unit

/-- Go `math.MaxInt32`, the `maxErrors` bound MigrateIndex passes to both
polling loops (es_service.go lines 216 and 228). -/
def maxInt32 : Nat := 2147483647

/-- The final alias cutover of MigrateIndex (lines 245-249): one atomic alias
request removing the alias from the old index (when there was one) and adding
it to the new index, with the optional filter. -/
def updateAliasStep (env : Env) (aliasName filter oldIndexName newIndexName : String)
    (tr : List Effect) : Outcome × List Effect :=
  let tr2 := tr ++ [Effect.aliasUpdate aliasName filter oldIndexName newIndexName]
  match env.aliasUpdateRes with
  | .error e => (.failure e, tr2)
  | .ok _ => (.success, tr2)

/-- The read-only/copy phase of MigrateIndex (lines 209-233), entered only
when a current index exists: set read-only, wait for the write block, read
the two counts, start the reindex, and poll for completion. -/
def copyPhase (env : Env) (cur newIndexName : String) (fuel : Nat) :
    Outcome × List Effect :=
  match env.setReadOnlyRes with
  | .error e => (.failure e, [.putReadOnly cur])
  | .ok _ =>
    let ro := waitForReadOnlyRun cur env.settingsObs maxInt32 0 0 fuel
    match ro.1 with
    | .failure e => (.failure e, .putReadOnly cur :: ro.2)
    | .timeout => (.timeout, .putReadOnly cur :: ro.2)
    | .success =>
      match env.destCountRes with
      | .error e => (.failure e, .putReadOnly cur :: ro.2 ++ [.countQuery newIndexName])
      | .ok _ =>
        match env.srcCountRes with
        | .error e =>
          (.failure e, .putReadOnly cur :: ro.2 ++
            [.countQuery newIndexName, .countQuery cur])
        | .ok n =>
          match env.reindexStartRes with
          | .error e =>
            (.failure e, .putReadOnly cur :: ro.2 ++
              [.countQuery newIndexName, .countQuery cur, .startReindex cur newIndexName])
          | .ok _ =>
            let wc := waitForCompletionRun newIndexName env.pollCounts n maxInt32 0 ⟨0, []⟩ fuel
            (wc.outcome, .putReadOnly cur :: ro.2 ++
              [.countQuery newIndexName, .countQuery cur, .startReindex cur newIndexName] ++
              wc.effects)

/-- Shallow embedding of es_service.go `MigrateIndex` (lines 173-253): check
the version is configured, gate on cluster health, resolve the alias, stop if
no update is required, read the mapping file, create the required index, run
the read-only/copy phase when an old index exists, read the optional alias
filter file, and cut the alias over. -/
def MigrateIndex (cfg : Config) (env : Env) (fuel : Nat) : Outcome × List Effect :=
  if cfg.indexVersion = "" then (.failure errNoIndexVersion, [])
  else
    match env.health with
    | .error e => (.failure e, [.healthQuery])
    | .ok _ =>
      let res := checkIndexAliases cfg.aliasName cfg.indexVersion env.aliases
      match res.err with
      | some e => (.failure e, [.healthQuery, .aliasesQuery])
      | none =>
        if !res.requireUpdate then (.success, [.healthQuery, .aliasesQuery])
        else
          match env.files cfg.mappingFile with
          | .error e => (.failure e, [.healthQuery, .aliasesQuery, .readFile cfg.mappingFile])
          | .ok mapping =>
            let tr1 := [Effect.healthQuery, .aliasesQuery, .readFile cfg.mappingFile,
              .createIndex res.requiredIndex mapping]
            match env.createIndexRes with
            | .error e => (.failure e, tr1)
            | .ok _ =>
              let copy : Outcome × List Effect :=
                if res.currentIndex = "" then (.success, [])
                else copyPhase env res.currentIndex res.requiredIndex fuel
              match copy.1 with
              | .failure e => (.failure e, tr1 ++ copy.2)
              | .timeout => (.timeout, tr1 ++ copy.2)
              | .success =>
                if cfg.aliasFilterFile = "" then
                  updateAliasStep env cfg.aliasName "" res.currentIndex res.requiredIndex
                    (tr1 ++ copy.2)
                else
                  match env.files cfg.aliasFilterFile with
                  | .error e =>
                    (.failure e, tr1 ++ copy.2 ++ [.readFile cfg.aliasFilterFile])
                  | .ok filt =>
                    updateAliasStep env cfg.aliasName filt res.currentIndex res.requiredIndex
                      (tr1 ++ copy.2 ++ [.readFile cfg.aliasFilterFile])

theorem ro_effects (idx : String) (st : Nat → SettingsObs) (m : Nat) :
    ∀ fuel i t x, x ∈ (waitForReadOnlyRun idx st m i t fuel).2 →
      x = Effect.getSettings idx ∨ x = Effect.putReadOnly idx := by
  intro fuel
  induction fuel with
  | zero =>
    intro i t x hx
    simp [waitForReadOnlyRun] at hx
  | succ fuel ih =>
    intro i t x hx
    by_cases hm : t + 1 = m
    · cases hobs : st i with
      | fetchError e =>
        simp [waitForReadOnlyRun, hobs, hm] at hx
        exact Or.inl hx
      | noBlocks =>
        simp [waitForReadOnlyRun, hobs, hm] at hx
        exact Or.inl hx
      | noWrite =>
        simp [waitForReadOnlyRun, hobs, hm] at hx
        exact Or.inl hx
      | write v =>
        by_cases hb : goParseBool v
        · simp [waitForReadOnlyRun, hobs, hb] at hx
          exact Or.inl hx
        · simp [waitForReadOnlyRun, hobs, hb, hm] at hx
          exact Or.inl hx
    · cases hobs : st i with
      | fetchError e =>
        simp [waitForReadOnlyRun, hobs, hm] at hx
        rcases hx with hx | hx
        · exact Or.inl hx
        · exact ih (i + 1) (t + 1) x hx
      | noBlocks =>
        simp [waitForReadOnlyRun, hobs, hm] at hx
        rcases hx with hx | hx | hx
        · exact Or.inl hx
        · exact Or.inr hx
        · exact ih (i + 1) (t + 1) x hx
      | noWrite =>
        simp [waitForReadOnlyRun, hobs, hm] at hx
        rcases hx with hx | hx | hx
        · exact Or.inl hx
        · exact Or.inr hx
        · exact ih (i + 1) (t + 1) x hx
      | write v =>
        by_cases hb : goParseBool v
        · simp [waitForReadOnlyRun, hobs, hb] at hx
          exact Or.inl hx
        · simp [waitForReadOnlyRun, hobs, hb, hm] at hx
          rcases hx with hx | hx | hx
          · exact Or.inl hx
          · exact Or.inr hx
          · exact ih (i + 1) (t + 1) x hx

theorem wc_effects (idx : String) (polls : Nat → Res Nat) (cc m fuel i : Nat)
    (s : CompState) :
    ∀ x ∈ (waitForCompletionRun idx polls cc m i s fuel).effects,
      x = Effect.countQuery idx := by
  intro x hx
  obtain ⟨n, _, h2, _⟩ := wc_progress idx polls cc m fuel i s
  rw [h2] at hx
  exact List.eq_of_mem_replicate hx

theorem copyPhase_effects (env : Env) (cur req : String) (fuel : Nat) :
    ∀ x ∈ (copyPhase env cur req fuel).2,
      x = Effect.putReadOnly cur ∨ x = Effect.getSettings cur ∨
      x = Effect.countQuery req ∨ x = Effect.countQuery cur ∨
      x = Effect.startReindex cur req := by
  intro x hx
  unfold copyPhase at hx
  rcases hro : waitForReadOnlyRun cur env.settingsObs maxInt32 0 0 fuel with ⟨o, tr⟩
  have hmemro : ∀ y ∈ tr, y = Effect.getSettings cur ∨ y = Effect.putReadOnly cur := by
    intro y hy
    have := ro_effects cur env.settingsObs maxInt32 fuel 0 0 y
    rw [hro] at this
    exact this hy
  cases hsr : env.setReadOnlyRes with
  | error e =>
    simp [hsr] at hx
    exact Or.inl hx
  | ok u =>
    rw [hsr, hro] at hx
    cases o with
    | failure e =>
      simp at hx
      rcases hx with hx | hx
      · exact Or.inl hx
      · rcases hmemro x hx with h | h
        · exact Or.inr (Or.inl h)
        · exact Or.inl h
    | timeout =>
      simp at hx
      rcases hx with hx | hx
      · exact Or.inl hx
      · rcases hmemro x hx with h | h
        · exact Or.inr (Or.inl h)
        · exact Or.inl h
    | success =>
      cases hdc : env.destCountRes with
      | error e =>
        simp [hdc] at hx
        rcases hx with hx | hx | hx
        · exact Or.inl hx
        · rcases hmemro x hx with h | h
          · exact Or.inr (Or.inl h)
          · exact Or.inl h
        · exact Or.inr (Or.inr (Or.inl hx))
      | ok d0 =>
        cases hsc : env.srcCountRes with
        | error e =>
          simp [hdc, hsc] at hx
          rcases hx with hx | hx | hx | hx
          · exact Or.inl hx
          · rcases hmemro x hx with h | h
            · exact Or.inr (Or.inl h)
            · exact Or.inl h
          · exact Or.inr (Or.inr (Or.inl hx))
          · exact Or.inr (Or.inr (Or.inr (Or.inl hx)))
        | ok n =>
          cases hrs : env.reindexStartRes with
          | error e =>
            simp [hdc, hsc, hrs] at hx
            rcases hx with hx | hx | hx | hx | hx
            · exact Or.inl hx
            · rcases hmemro x hx with h | h
              · exact Or.inr (Or.inl h)
              · exact Or.inl h
            · exact Or.inr (Or.inr (Or.inl hx))
            · exact Or.inr (Or.inr (Or.inr (Or.inl hx)))
            · exact Or.inr (Or.inr (Or.inr (Or.inr hx)))
          | ok u2 =>
            simp [hdc, hsc, hrs] at hx
            rcases hx with hx | hx | hx | hx | hx | hx
            · exact Or.inl hx
            · rcases hmemro x hx with h | h
              · exact Or.inr (Or.inl h)
              · exact Or.inl h
            · exact Or.inr (Or.inr (Or.inl hx))
            · exact Or.inr (Or.inr (Or.inr (Or.inl hx)))
            · exact Or.inr (Or.inr (Or.inr (Or.inr hx)))
            · exact Or.inr (Or.inr (Or.inl (wc_effects req env.pollCounts n maxInt32 fuel 0 ⟨0, []⟩ x hx)))

theorem copyPhase_success_reindexed (env : Env) (cur req : String) (fuel : Nat)
    (h : (copyPhase env cur req fuel).1 = .success) :
    Effect.startReindex cur req ∈ (copyPhase env cur req fuel).2 := by
  unfold copyPhase at h ⊢
  rcases hro : waitForReadOnlyRun cur env.settingsObs maxInt32 0 0 fuel with ⟨o, tr⟩
  cases hsr : env.setReadOnlyRes with
  | error e =>
    simp [hsr] at h
  | ok u =>
    rw [hro] at h
    simp only at h ⊢
    cases o with
    | failure e => simp [hsr] at h
    | timeout => simp [hsr] at h
    | success =>
      cases hdc : env.destCountRes with
      | error e => simp [hsr, hdc] at h
      | ok d0 =>
        cases hsc : env.srcCountRes with
        | error e => simp [hsr, hdc, hsc] at h
        | ok n =>
          cases hrs : env.reindexStartRes with
          | error e => simp [hsr, hdc, hsc, hrs] at h
          | ok u2 =>
            simp [hdc, hsc, hrs]

/-- Claim C5: when the alias already resolves to exactly the required index
name, MigrateIndex returns success immediately with a trace containing only
the health check and the alias query: no file read, no index creation, no
read-only write, no reindex, no alias update.  Since the run performs no
writes, the cluster state is unchanged and repeated invocations in this state
return the same result, making the orchestrator idempotent. -/
theorem migrateIndex_idempotent_noop (cfg : Config) (env : Env) (fuel : Nat)
    (hv : cfg.indexVersion ≠ "") (hh : env.health = .ok ())
    (ha : env.aliases = .ok [cfg.aliasName ++ "-" ++ cfg.indexVersion]) :
    MigrateIndex cfg env fuel = (.success, [.healthQuery, .aliasesQuery]) := by
  simp [MigrateIndex, hv, hh, ha, checkIndexAliases]

/-- Witness for C5 on a concrete configuration and environment. -/
theorem migrateIndex_idempotent_noop_witness :
    MigrateIndex ⟨"concepts", "mapping.json", "", "1.0.0"⟩
      ⟨.ok (), .ok ["concepts-1.0.0"], fun _ => .error "no file", .ok (), .ok (),
        fun _ => .noBlocks, .ok 0, .ok 0, .ok (), fun _ => .ok 0, .ok ()⟩ 9 =
      (.success, [.healthQuery, .aliasesQuery]) :=
  migrateIndex_idempotent_noop ⟨"concepts", "mapping.json", "", "1.0.0"⟩
    ⟨.ok (), .ok ["concepts-1.0.0"], fun _ => .error "no file", .ok (), .ok (),
      fun _ => .noBlocks, .ok 0, .ok 0, .ok (), fun _ => .ok 0, .ok ()⟩ 9
    (by decide) rfl rfl

/-- Claim C6: when the alias resolves to zero indices (bootstrap), MigrateIndex
creates the index `"{alias}-{version}"` and proceeds directly to the alias
cutover: the trace is exactly health check, alias query, mapping read, index
creation, alias update — no read-only write, no settings poll, no reindex,
and no completion count query occur. -/
theorem migrateIndex_bootstrap (cfg : Config) (env : Env) (fuel : Nat) (mapping : String)
    (hv : cfg.indexVersion ≠ "") (hh : env.health = .ok ())
    (ha : env.aliases = .ok [])
    (hm : env.files cfg.mappingFile = .ok mapping)
    (hc : env.createIndexRes = .ok ())
    (hf : cfg.aliasFilterFile = "")
    (hu : env.aliasUpdateRes = .ok ()) :
    MigrateIndex cfg env fuel =
      (.success, [.healthQuery, .aliasesQuery, .readFile cfg.mappingFile,
        .createIndex (cfg.aliasName ++ "-" ++ cfg.indexVersion) mapping,
        .aliasUpdate cfg.aliasName "" "" (cfg.aliasName ++ "-" ++ cfg.indexVersion)]) := by
  simp [MigrateIndex, hv, hh, ha, hm, hc, hf, hu, checkIndexAliases, updateAliasStep]

/-- Witness for C6 on a concrete configuration and environment. -/
theorem migrateIndex_bootstrap_witness :
    MigrateIndex ⟨"concepts", "mapping.json", "", "1.0.0"⟩
      ⟨.ok (), .ok [], fun _ => .ok "the-mapping", .ok (), .ok (),
        fun _ => .noBlocks, .ok 0, .ok 0, .ok (), fun _ => .ok 0, .ok ()⟩ 9 =
      (.success, [.healthQuery, .aliasesQuery, .readFile "mapping.json",
        .createIndex ("concepts" ++ "-" ++ "1.0.0") "the-mapping",
        .aliasUpdate "concepts" "" "" ("concepts" ++ "-" ++ "1.0.0")]) :=
  migrateIndex_bootstrap ⟨"concepts", "mapping.json", "", "1.0.0"⟩
    ⟨.ok (), .ok [], fun _ => .ok "the-mapping", .ok (), .ok (),
      fun _ => .noBlocks, .ok 0, .ok 0, .ok (), fun _ => .ok 0, .ok ()⟩ 9 "the-mapping"
    (by decide) rfl rfl rfl rfl rfl rfl

/-- Claim C3: a destination count sequence stuck at a constant value below the
expected count makes the completion monitor abort with the stalled error
rather than poll forever.  With the error budget 3 the stalled error is
raised within 16 polls (one stall event per 5 polls once the window is warm,
three events exhausting the budget); and the orchestrator's copy phase with
its `math.MaxInt32` budget likewise terminates with the stalled error on such
input, given enough fuel to reach the bound. -/
theorem stall_terminates (idx : String) (c1 cc1 fuel1 : Nat)
    (cfg : Config) (env : Env) (fuel : Nat) (mapping cur : String) (d0 cc c : Nat)
    (h1 : c1 ≠ cc1) (hfuel1 : 16 ≤ fuel1)
    (hv : cfg.indexVersion ≠ "") (hh : env.health = .ok ())
    (ha : env.aliases = .ok [cur])
    (hcurne : cur ≠ cfg.aliasName ++ "-" ++ cfg.indexVersion)
    (hcur : cur ≠ "")
    (hm : env.files cfg.mappingFile = .ok mapping)
    (hc : env.createIndexRes = .ok ())
    (hsr : env.setReadOnlyRes = .ok ())
    (hso : env.settingsObs 0 = .write "true")
    (hdc : env.destCountRes = .ok d0)
    (hsc : env.srcCountRes = .ok cc)
    (hrs : env.reindexStartRes = .ok ())
    (hpc : env.pollCounts = fun _ => .ok c)
    (hcne : c ≠ cc)
    (hfuel : 5 * maxInt32 + 1 ≤ fuel) :
    (waitForCompletionRun idx (fun _ => .ok c1) cc1 3 0 ⟨0, []⟩ fuel1).outcome =
      .failure (reindexStalledMsg idx) ∧
    (MigrateIndex cfg env fuel).1 =
      .failure (reindexStalledMsg (cfg.aliasName ++ "-" ++ cfg.indexVersion)) := by
  constructor
  · exact stall_run_main idx c1 cc1 3 0 fuel1 h1 (by omega) (by omega)
  · obtain ⟨f, rfl⟩ : ∃ f, fuel = f + 1 := ⟨fuel - 1, by omega⟩
    have hgb : goParseBool "true" = true := by decide
    have hro : waitForReadOnlyRun cur env.settingsObs maxInt32 0 0 (f + 1) =
        (.success, [.getSettings cur]) := by
      simp [waitForReadOnlyRun, hso, hgb]
    have hwc : (waitForCompletionRun (cfg.aliasName ++ "-" ++ cfg.indexVersion)
        env.pollCounts cc maxInt32 0 ⟨0, []⟩ (f + 1)).outcome =
        .failure (reindexStalledMsg (cfg.aliasName ++ "-" ++ cfg.indexVersion)) := by
      rw [hpc]
      exact stall_run_main (cfg.aliasName ++ "-" ++ cfg.indexVersion) c cc maxInt32 0
        (f + 1) hcne (by norm_num [maxInt32]) hfuel
    have hbne : (cur == cfg.aliasName ++ "-" ++ cfg.indexVersion) = false := by
      simp [hcurne]
    have hcopy : (copyPhase env cur (cfg.aliasName ++ "-" ++ cfg.indexVersion) (f + 1)).1 =
        .failure (reindexStalledMsg (cfg.aliasName ++ "-" ++ cfg.indexVersion)) := by
      simp [copyPhase, hsr, hro, hdc, hsc, hrs, hwc]
    simp [MigrateIndex, hv, hh, ha, checkIndexAliases, hbne, hm, hc, hcur, hcopy]

/-- Witness for C3 on a concrete stalled environment. -/
theorem stall_terminates_witness :
    (waitForCompletionRun "idx" (fun _ => .ok 1) 100 3 0 ⟨0, []⟩ 16).outcome =
      .failure (reindexStalledMsg "idx") ∧
    (MigrateIndex ⟨"concepts", "map.json", "", "1.0.0"⟩
      ⟨.ok (), .ok ["old"], fun _ => .ok "m", .ok (), .ok (),
        fun _ => .write "true", .ok 0, .ok 100, .ok (), fun _ => .ok 7, .ok ()⟩
      (5 * maxInt32 + 1)).1 =
      .failure (reindexStalledMsg ("concepts" ++ "-" ++ "1.0.0")) :=
  stall_terminates "idx" 1 100 16 ⟨"concepts", "map.json", "", "1.0.0"⟩
    ⟨.ok (), .ok ["old"], fun _ => .ok "m", .ok (), .ok (),
      fun _ => .write "true", .ok 0, .ok 100, .ok (), fun _ => .ok 7, .ok ()⟩
    (5 * maxInt32 + 1) "m" "old" 0 100 7
    (by decide) (by decide) (by decide) rfl rfl (by decide) (by decide) rfl rfl rfl rfl
    rfl rfl rfl rfl (by decide) (Nat.le_refl _)

/-- Claim C10: whenever an alias-filter file is configured but reading it
fails, no run of MigrateIndex ever attempts an alias update (so the alias
still resolves to the old index afterwards); and any run that reaches the
filter read returns the file-read error, after having created the new index
`"{alias}-{version}"` and, when an old index existed, after having started
the document copy. -/
theorem migrateIndex_alias_filter_error (cfg : Config) (env : Env) (fuel : Nat) (e : String)
    (hcfg : cfg.aliasFilterFile ≠ "")
    (hmf : cfg.mappingFile ≠ cfg.aliasFilterFile)
    (hread : env.files cfg.aliasFilterFile = .error e) :
    (∀ al fl o n, Effect.aliasUpdate al fl o n ∉ (MigrateIndex cfg env fuel).2) ∧
    (Effect.readFile cfg.aliasFilterFile ∈ (MigrateIndex cfg env fuel).2 →
      (MigrateIndex cfg env fuel).1 = .failure e ∧
      ∃ mp, Effect.createIndex (cfg.aliasName ++ "-" ++ cfg.indexVersion) mp ∈
        (MigrateIndex cfg env fuel).2) ∧
    (∀ cur, env.aliases = .ok [cur] → cur ≠ "" →
      Effect.readFile cfg.aliasFilterFile ∈ (MigrateIndex cfg env fuel).2 →
      Effect.startReindex cur (cfg.aliasName ++ "-" ++ cfg.indexVersion) ∈
        (MigrateIndex cfg env fuel).2) := by
  by_cases hver : cfg.indexVersion = ""
  · have hM : MigrateIndex cfg env fuel = (.failure errNoIndexVersion, []) := by
      simp [MigrateIndex, hver]
    refine ⟨?_, ?_, ?_⟩
    · intro al fl o n hmem
      simp [hM] at hmem
    · intro hmem
      simp [hM] at hmem
    · intro cur _ _ hmem
      simp [hM] at hmem
  · cases hh : env.health with
    | error e0 =>
      have hM : MigrateIndex cfg env fuel = (.failure e0, [.healthQuery]) := by
        simp [MigrateIndex, hver, hh]
      refine ⟨?_, ?_, ?_⟩
      · intro al fl o n hmem
        simp [hM] at hmem
      · intro hmem
        simp [hM] at hmem
      · intro cur _ _ hmem
        simp [hM] at hmem
    | ok u =>
      cases haq : env.aliases with
      | error e0 =>
        have hM : MigrateIndex cfg env fuel = (.failure e0, [.healthQuery, .aliasesQuery]) := by
          simp [MigrateIndex, hver, hh, haq, checkIndexAliases]
        refine ⟨?_, ?_, ?_⟩
        · intro al fl o n hmem
          simp [hM] at hmem
        · intro hmem
          simp [hM] at hmem
        · intro cur _ _ hmem
          simp [hM] at hmem
      | ok l =>
        rcases l with - | ⟨c1, t⟩
        · -- bootstrap: the alias resolves to zero indices
          cases hfm : env.files cfg.mappingFile with
          | error e0 =>
            have hM : MigrateIndex cfg env fuel =
                (.failure e0, [.healthQuery, .aliasesQuery, .readFile cfg.mappingFile]) := by
              simp [MigrateIndex, hver, hh, haq, checkIndexAliases, hfm]
            refine ⟨?_, ?_, ?_⟩
            · intro al fl o n hmem
              simp [hM] at hmem
            · intro hmem
              simp [hM] at hmem
              exact absurd hmem.symm hmf
            · intro cur hacur _ _
              simp at hacur
          | ok mp =>
            cases hci : env.createIndexRes with
            | error e0 =>
              have hM : MigrateIndex cfg env fuel =
                  (.failure e0, [.healthQuery, .aliasesQuery, .readFile cfg.mappingFile,
                    .createIndex (cfg.aliasName ++ "-" ++ cfg.indexVersion) mp]) := by
                simp [MigrateIndex, hver, hh, haq, checkIndexAliases, hfm, hci]
              refine ⟨?_, ?_, ?_⟩
              · intro al fl o n hmem
                simp [hM] at hmem
              · intro hmem
                simp [hM] at hmem
                exact absurd hmem.symm hmf
              · intro cur hacur _ _
                simp at hacur
            | ok u1 =>
              have hM : MigrateIndex cfg env fuel =
                  (.failure e, [.healthQuery, .aliasesQuery, .readFile cfg.mappingFile,
                    .createIndex (cfg.aliasName ++ "-" ++ cfg.indexVersion) mp,
                    .readFile cfg.aliasFilterFile]) := by
                simp [MigrateIndex, hver, hh, haq, checkIndexAliases, hfm, hci, hcfg, hread]
              refine ⟨?_, ?_, ?_⟩
              · intro al fl o n hmem
                simp [hM] at hmem
              · intro _
                exact ⟨by simp [hM], mp, by simp [hM]⟩
              · intro cur hacur _ _
                simp at hacur
        · rcases t with - | ⟨c2, rest⟩
          · -- the alias resolves to exactly one index c1
            by_cases hequ : c1 = cfg.aliasName ++ "-" ++ cfg.indexVersion
            · have hM : MigrateIndex cfg env fuel = (.success, [.healthQuery, .aliasesQuery]) := by
                simp [MigrateIndex, hver, hh, haq, checkIndexAliases, hequ]
              refine ⟨?_, ?_, ?_⟩
              · intro al fl o n hmem
                simp [hM] at hmem
              · intro hmem
                simp [hM] at hmem
              · intro cur _ _ hmem
                simp [hM] at hmem
            · have hbne : (c1 == cfg.aliasName ++ "-" ++ cfg.indexVersion) = false := by
                simp [hequ]
              cases hfm : env.files cfg.mappingFile with
              | error e0 =>
                have hM : MigrateIndex cfg env fuel =
                    (.failure e0, [.healthQuery, .aliasesQuery, .readFile cfg.mappingFile]) := by
                  simp [MigrateIndex, hver, hh, haq, checkIndexAliases, hbne, hfm]
                refine ⟨?_, ?_, ?_⟩
                · intro al fl o n hmem
                  simp [hM] at hmem
                · intro hmem
                  simp [hM] at hmem
                  exact absurd hmem.symm hmf
                · intro cur _ _ hmem
                  simp [hM] at hmem
                  exact absurd hmem.symm hmf
              | ok mp =>
                cases hci : env.createIndexRes with
                | error e0 =>
                  have hM : MigrateIndex cfg env fuel =
                      (.failure e0, [.healthQuery, .aliasesQuery, .readFile cfg.mappingFile,
                        .createIndex (cfg.aliasName ++ "-" ++ cfg.indexVersion) mp]) := by
                    simp [MigrateIndex, hver, hh, haq, checkIndexAliases, hbne, hfm, hci]
                  refine ⟨?_, ?_, ?_⟩
                  · intro al fl o n hmem
                    simp [hM] at hmem
                  · intro hmem
                    simp [hM] at hmem
                    exact absurd hmem.symm hmf
                  · intro cur _ _ hmem
                    simp [hM] at hmem
                    exact absurd hmem.symm hmf
                | ok u1 =>
                  by_cases hc1 : c1 = ""
                  · subst hc1
                    have hM : MigrateIndex cfg env fuel =
                        (.failure e, [.healthQuery, .aliasesQuery, .readFile cfg.mappingFile,
                          .createIndex (cfg.aliasName ++ "-" ++ cfg.indexVersion) mp,
                          .readFile cfg.aliasFilterFile]) := by
                      simp [MigrateIndex, hver, hh, haq, checkIndexAliases, hbne, hfm, hci,
                        hcfg, hread]
                    refine ⟨?_, ?_, ?_⟩
                    · intro al fl o n hmem
                      simp [hM] at hmem
                    · intro _
                      exact ⟨by simp [hM], mp, by simp [hM]⟩
                    · intro cur hacur hcne _
                      simp at hacur
                      subst hacur
                      exact absurd rfl hcne
                  · rcases hcp : copyPhase env c1 (cfg.aliasName ++ "-" ++ cfg.indexVersion) fuel
                      with ⟨o, trc⟩
                    have htrc : ∀ x ∈ trc,
                        x = Effect.putReadOnly c1 ∨ x = Effect.getSettings c1 ∨
                        x = Effect.countQuery (cfg.aliasName ++ "-" ++ cfg.indexVersion) ∨
                        x = Effect.countQuery c1 ∨
                        x = Effect.startReindex c1 (cfg.aliasName ++ "-" ++ cfg.indexVersion) := by
                      intro x hx
                      have := copyPhase_effects env c1 (cfg.aliasName ++ "-" ++ cfg.indexVersion)
                        fuel x
                      rw [hcp] at this
                      exact this hx
                    cases o with
                    | failure e0 =>
                      have hM : MigrateIndex cfg env fuel =
                          (.failure e0, [.healthQuery, .aliasesQuery, .readFile cfg.mappingFile,
                            .createIndex (cfg.aliasName ++ "-" ++ cfg.indexVersion) mp] ++ trc) := by
                        simp [MigrateIndex, hver, hh, haq, checkIndexAliases, hbne, hfm, hci,
                          hc1, hcp]
                      refine ⟨?_, ?_, ?_⟩
                      · intro al fl o n hmem
                        simp [hM] at hmem
                        rcases htrc _ hmem with h | h | h | h | h <;> simp at h
                      · intro hmem
                        simp [hM] at hmem
                        rcases hmem with hmem | hmem
                        · exact absurd hmem.symm hmf
                        · rcases htrc _ hmem with h | h | h | h | h <;> simp at h
                      · intro cur _ _ hmem
                        simp [hM] at hmem
                        rcases hmem with hmem | hmem
                        · exact absurd hmem.symm hmf
                        · rcases htrc _ hmem with h | h | h | h | h <;> simp at h
                    | timeout =>
                      have hM : MigrateIndex cfg env fuel =
                          (.timeout, [.healthQuery, .aliasesQuery, .readFile cfg.mappingFile,
                            .createIndex (cfg.aliasName ++ "-" ++ cfg.indexVersion) mp] ++ trc) := by
                        simp [MigrateIndex, hver, hh, haq, checkIndexAliases, hbne, hfm, hci,
                          hc1, hcp]
                      refine ⟨?_, ?_, ?_⟩
                      · intro al fl o n hmem
                        simp [hM] at hmem
                        rcases htrc _ hmem with h | h | h | h | h <;> simp at h
                      · intro hmem
                        simp [hM] at hmem
                        rcases hmem with hmem | hmem
                        · exact absurd hmem.symm hmf
                        · rcases htrc _ hmem with h | h | h | h | h <;> simp at h
                      · intro cur _ _ hmem
                        simp [hM] at hmem
                        rcases hmem with hmem | hmem
                        · exact absurd hmem.symm hmf
                        · rcases htrc _ hmem with h | h | h | h | h <;> simp at h
                    | success =>
                      have hM : MigrateIndex cfg env fuel =
                          (.failure e, ([.healthQuery, .aliasesQuery, .readFile cfg.mappingFile,
                            .createIndex (cfg.aliasName ++ "-" ++ cfg.indexVersion) mp] ++ trc) ++
                            [.readFile cfg.aliasFilterFile]) := by
                        simp [MigrateIndex, hver, hh, haq, checkIndexAliases, hbne, hfm, hci,
                          hc1, hcp, hcfg, hread]
                      have hsri : Effect.startReindex c1 (cfg.aliasName ++ "-" ++ cfg.indexVersion)
                          ∈ trc := by
                        have hsucc : (copyPhase env c1 (cfg.aliasName ++ "-" ++ cfg.indexVersion)
                            fuel).1 = .success := by
                          rw [hcp]
                        have := copyPhase_success_reindexed env c1
                          (cfg.aliasName ++ "-" ++ cfg.indexVersion) fuel hsucc
                        rw [hcp] at this
                        exact this
                      refine ⟨?_, ?_, ?_⟩
                      · intro al fl o n hmem
                        simp [hM] at hmem
                        rcases htrc _ hmem with h | h | h | h | h <;> simp at h
                      · intro _
                        exact ⟨by simp [hM], mp, by simp [hM]⟩
                      · intro cur hacur _ _
                        simp at hacur
                        rw [hM]
                        subst hacur
                        exact List.mem_append.mpr (Or.inl (List.mem_append.mpr (Or.inr hsri)))
          · -- the alias resolves to two or more indices
            have hM : MigrateIndex cfg env fuel =
                (.failure (multipleIndicesMsg cfg.aliasName (c1 :: c2 :: rest)),
                  [.healthQuery, .aliasesQuery]) := by
              simp [MigrateIndex, hver, hh, haq, checkIndexAliases]
            refine ⟨?_, ?_, ?_⟩
            · intro al fl o n hmem
              simp [hM] at hmem
            · intro hmem
              simp [hM] at hmem
            · intro cur _ _ hmem
              simp [hM] at hmem

/-- Witness for C10: a bootstrap run with an unreadable filter file. -/
theorem migrateIndex_alias_filter_error_witness :
    ("" : String) ≠ "" ∨
    (∀ al fl o n, Effect.aliasUpdate al fl o n ∉
      (MigrateIndex ⟨"concepts", "mapping.json", "filter.json", "1.0.0"⟩
        ⟨.ok (), .ok [], fun _ => .error "unreadable", .ok (), .ok (),
          fun _ => .noBlocks, .ok 0, .ok 0, .ok (), fun _ => .ok 0, .ok ()⟩ 9).2) :=
  Or.inr (migrateIndex_alias_filter_error
    ⟨"concepts", "mapping.json", "filter.json", "1.0.0"⟩
    ⟨.ok (), .ok [], fun _ => .error "unreadable", .ok (), .ok (),
      fun _ => .noBlocks, .ok 0, .ok 0, .ok (), fun _ => .ok 0, .ok ()⟩ 9 "unreadable"
    (by decide) (by decide) rfl).1

end Reindexer
